import Mathlib

/-!
Verification of the port-profile reconciliation engine (src/main.py).

Python strings are modelled as `List Char`; Python `set`s as insertion-ordered
duplicate-free lists (parser) or `Finset` (analyzer, whose sets are only
consumed by cardinality and membership); Python `int` as `Int` / `Nat`;
the float success percentage as `ℚ` (the claims only concern exact ratios).
-/

namespace PortProfile

/-- Python's whitespace test for `str.strip()` / `str.split()`, restricted to
the ASCII whitespace characters (the configuration dialect is ASCII). -/
def isSpaceChar (c : Char) : Bool :=
  c.toNat = 32 || c.toNat = 9 || c.toNat = 10 || c.toNat = 13 || c.toNat = 11 || c.toNat = 12

/-- ASCII decimal digit test, as used by Python `int()` on the numeric suffix. -/
def isDigitC (c : Char) : Bool :=
  48 ≤ c.toNat && c.toNat ≤ 57

/-- Python `str.strip()` with no argument: remove leading and trailing whitespace. -/
def stripChars (s : List Char) : List Char :=
  ((((s.dropWhile isSpaceChar).reverse).dropWhile isSpaceChar)).reverse

/-- `hasPfx p s` models Python `s.startswith(p)`. -/
def hasPfx : List Char → List Char → Bool
  | [], _ => true
  | _ :: _, [] => false
  | p :: ps, c :: cs => if p = c then hasPfx ps cs else false

/-- `containsSub sub s` models Python `sub in s` (substring containment). -/
def containsSub (sub : List Char) : List Char → Bool
  | [] => hasPfx sub []
  | c :: rest => hasPfx sub (c :: rest) || containsSub sub rest

/-- ASCII lower-casing of one character, modelling Python `str.lower()`
on the ASCII configuration text. -/
def lowerChar (c : Char) : Char :=
  if 65 ≤ c.toNat ∧ c.toNat ≤ 90 then Char.ofNat (c.toNat + 32) else c

/-- Python `str.lower()`. -/
def lowerStr (s : List Char) : List Char := s.map lowerChar

/-- Splitter on a single separator character, modelling Python
`str.split(sep)` for a one-character separator (keeps empty fields). -/
def splitChAux (sep : Char) : List Char → List Char → List (List Char)
  | [], acc => [acc.reverse]
  | c :: rest, acc =>
    if c = sep then acc.reverse :: splitChAux sep rest []
    else splitChAux sep rest (c :: acc)

/-- Python `s.split(sep)` for a one-character separator. -/
def splitCh (sep : Char) (s : List Char) : List (List Char) := splitChAux sep s []

/-- Python `str.split()` with no argument: split on whitespace runs,
discarding empty fields. -/
def splitWsAux : List Char → List Char → List (List Char)
  | [], acc => if acc = [] then [] else [acc.reverse]
  | c :: rest, acc =>
    if isSpaceChar c then
      (if acc = [] then splitWsAux rest [] else acc.reverse :: splitWsAux rest [])
    else splitWsAux rest (c :: acc)

/-- Python `s.split()` (whitespace split). -/
def pySplitWs (s : List Char) : List (List Char) := splitWsAux s []

/-- Python `s.replace(pat, rep)` (left-to-right, non-overlapping), fuel-based
so that it reduces in the kernel.  Python's empty-pattern behaviour (inserting
`rep` at every position) is not modelled; every pattern used by the source is
non-empty. -/
def pyReplaceAux (pat rep : List Char) : Nat → List Char → List Char
  | _, [] => []
  | 0, s => s
  | fuel + 1, c :: rest =>
    if pat ≠ [] ∧ hasPfx pat (c :: rest) = true then
      rep ++ pyReplaceAux pat rep fuel (rest.drop (pat.length - 1))
    else
      c :: pyReplaceAux pat rep fuel rest

/-- Python `s.replace(pat, rep)`. -/
def pyReplace (pat rep s : List Char) : List Char := pyReplaceAux pat rep s.length s

/-- The decimal character of a digit value (values ≥ 9 all render as '9';
the callers only pass values < 10). -/
def digitChar (d : Nat) : Char :=
  if d = 0 then '0' else if d = 1 then '1' else if d = 2 then '2'
  else if d = 3 then '3' else if d = 4 then '4' else if d = 5 then '5'
  else if d = 6 then '6' else if d = 7 then '7' else if d = 8 then '8' else '9'

/-- Decimal rendering of a natural number, fuel-based so that it reduces in
the kernel; models Python `str(n)` for a non-negative `int`. -/
def natDigitsAux : Nat → Nat → List Char
  | 0, _ => []
  | fuel + 1, n =>
    if n < 10 then [digitChar n]
    else natDigitsAux fuel (n / 10) ++ [digitChar (n % 10)]

/-- Decimal rendering of a natural number (Python `str(n)` for `n ≥ 0`). -/
def natDigits (n : Nat) : List Char := natDigitsAux (n + 1) n

/-- Decimal rendering of an integer: models Python `str(n)` inside f-strings. -/
def intStr (n : Int) : List Char :=
  if n < 0 then '-' :: natDigits n.natAbs else natDigits n.toNat

/-- Numeric value of a digit character. -/
def digitVal (c : Char) : Nat := c.toNat - 48

/-- Value of a list of decimal digit characters. -/
def digitsToNat (ds : List Char) : Nat := ds.foldl (fun a c => a * 10 + digitVal c) 0

/-- Parse a non-empty all-digit character list to its value, else fail. -/
def parseDigits? (ds : List Char) : Option Nat :=
  if ds ≠ [] ∧ ds.all isDigitC = true then some (digitsToNat ds) else none

/-- Python `int(s)`: strips surrounding whitespace, accepts an optional minus
sign followed by decimal digits, raises `ValueError` (here: `none`) otherwise.
(Python's additional acceptance of a leading `+` and of `_` digit separators is
not modelled; no input in the claims uses them.) -/
def pyInt? (s : List Char) : Option Int :=
  if hasPfx ['-'] (stripChars s) = true then
    (parseDigits? ((stripChars s).drop 1)).map (fun n => -(n : Int))
  else
    (parseDigits? (stripChars s)).map (fun n => (n : Int))

/-! ### Round-trip lemmas for decimal rendering and parsing -/

lemma isDigitC_digitChar (d : Nat) : isDigitC (digitChar d) = true := by
  unfold digitChar
  split_ifs <;> decide

lemma digitVal_digitChar (d : Nat) (h : d < 10) : digitVal (digitChar d) = d := by
  unfold digitChar
  split_ifs with h0 h1 h2 h3 h4 h5 h6 h7 h8
  · subst h0; decide
  · subst h1; decide
  · subst h2; decide
  · subst h3; decide
  · subst h4; decide
  · subst h5; decide
  · subst h6; decide
  · subst h7; decide
  · subst h8; decide
  · have : d = 9 := by omega
    subst this; decide

lemma not_space_of_digit (c : Char) (h : isDigitC c = true) : isSpaceChar c = false := by
  unfold isDigitC at h
  unfold isSpaceChar
  simp only [Bool.and_eq_true, decide_eq_true_eq] at h
  simp only [Bool.or_eq_false_iff, decide_eq_false_iff_not]
  omega

lemma digit_ne_dash (c : Char) (h : isDigitC c = true) : c ≠ '-' := by
  intro hEq; subst hEq; exact absurd h (by decide)

lemma digit_ne_slash (c : Char) (h : isDigitC c = true) : c ≠ '/' := by
  intro hEq; subst hEq; exact absurd h (by decide)

lemma digit_ne_newline (c : Char) (h : isDigitC c = true) : c ≠ '\n' := by
  intro hEq; subst hEq; exact absurd h (by decide)

lemma natDigitsAux_fuel : ∀ (f1 f2 n : Nat), n < f1 → n < f2 →
    natDigitsAux f1 n = natDigitsAux f2 n := by
  intro f1
  induction f1 with
  | zero => intro f2 n h1 _; omega
  | succ f ih =>
    intro f2 n h1 h2
    cases f2 with
    | zero => omega
    | succ g =>
      simp only [natDigitsAux]
      split
      · rfl
      · rename_i hn
        have hd : n / 10 < n := Nat.div_lt_self (by omega) (by omega)
        rw [ih g (n / 10) (by omega) (by omega)]

lemma natDigits_eq (n : Nat) :
    natDigits n = if n < 10 then [digitChar n]
      else natDigits (n / 10) ++ [digitChar (n % 10)] := by
  show natDigitsAux (n + 1) n = _
  simp only [natDigitsAux]
  split
  · rfl
  · rename_i hn
    have hd : n / 10 < n := Nat.div_lt_self (by omega) (by omega)
    rw [natDigitsAux_fuel n (n / 10 + 1) (n / 10) (by omega) (by omega)]
    rfl

lemma natDigits_ne_nil (n : Nat) : natDigits n ≠ [] := by
  rw [natDigits_eq]
  split <;> simp

lemma mem_natDigits_digit (n : Nat) : ∀ c ∈ natDigits n, isDigitC c = true := by
  induction n using Nat.strong_induction_on with
  | _ n ih =>
    intro c hc
    rw [natDigits_eq] at hc
    split at hc
    · simp only [List.mem_singleton] at hc
      subst hc; exact isDigitC_digitChar n
    · rename_i hn
      have hd : n / 10 < n := Nat.div_lt_self (by omega) (by omega)
      rcases List.mem_append.mp hc with h | h
      · exact ih (n / 10) hd c h
      · simp only [List.mem_singleton] at h
        subst h; exact isDigitC_digitChar (n % 10)

lemma digitsToNat_append_singleton (xs : List Char) (c : Char) :
    digitsToNat (xs ++ [c]) = digitsToNat xs * 10 + digitVal c := by
  simp [digitsToNat, List.foldl_append]

lemma digitsToNat_natDigits (n : Nat) : digitsToNat (natDigits n) = n := by
  induction n using Nat.strong_induction_on with
  | _ n ih =>
    rw [natDigits_eq]
    split
    · rename_i hn
      simp [digitsToNat, digitVal_digitChar n hn]
    · rename_i hn
      have hd : n / 10 < n := Nat.div_lt_self (by omega) (by omega)
      rw [digitsToNat_append_singleton, ih (n / 10) hd,
        digitVal_digitChar _ (Nat.mod_lt n (by omega))]
      have := Nat.div_add_mod n 10
      omega

lemma natDigits_inj {a b : Nat} (h : natDigits a = natDigits b) : a = b := by
  have ha := digitsToNat_natDigits a
  rw [h, digitsToNat_natDigits] at ha
  omega

lemma parseDigits_natDigits (n : Nat) : parseDigits? (natDigits n) = some n := by
  unfold parseDigits?
  rw [if_pos]
  · rw [digitsToNat_natDigits]
  · refine ⟨natDigits_ne_nil n, ?_⟩
    rw [List.all_eq_true]
    intro c hc
    exact mem_natDigits_digit n c hc

lemma dropWhile_eq_self_of_all {p : Char → Bool} :
    ∀ l : List Char, (∀ c ∈ l, p c = false) → l.dropWhile p = l := by
  intro l h
  cases l with
  | nil => rfl
  | cons c rest =>
    have := h c (List.mem_cons_self c rest)
    simp [List.dropWhile_cons, this]

lemma stripChars_eq_self (l : List Char) (h : ∀ c ∈ l, isSpaceChar c = false) :
    stripChars l = l := by
  unfold stripChars
  rw [dropWhile_eq_self_of_all l h,
    dropWhile_eq_self_of_all l.reverse (by intro c hc; exact h c (List.mem_reverse.mp hc)),
    List.reverse_reverse]

lemma hasPfx_dash_natDigits (n : Nat) : hasPfx ['-'] (natDigits n) = false := by
  obtain ⟨c, rest, hcr⟩ := List.exists_cons_of_ne_nil (natDigits_ne_nil n)
  have hc : isDigitC c = true :=
    mem_natDigits_digit n c (by rw [hcr]; exact List.mem_cons_self c rest)
  rw [hcr]
  have hnd : ¬ (('-' : Char) = c) := fun h => digit_ne_dash c hc h.symm
  simp [hasPfx, hnd]

lemma stripChars_natDigits (n : Nat) : stripChars (natDigits n) = natDigits n :=
  stripChars_eq_self _ (fun c hc => not_space_of_digit c (mem_natDigits_digit n c hc))

lemma pyInt_natDigits (n : Nat) : pyInt? (natDigits n) = some (n : Int) := by
  unfold pyInt?
  rw [stripChars_natDigits, hasPfx_dash_natDigits]
  simp [parseDigits_natDigits]

/-! ### Splitter lemmas -/

lemma splitChAux_ne_nil (sep : Char) : ∀ (s acc : List Char), splitChAux sep s acc ≠ [] := by
  intro s
  induction s with
  | nil => intro acc; simp [splitChAux]
  | cons c rest ih =>
    intro acc
    simp only [splitChAux]
    split
    · simp
    · exact ih _

lemma getLastD_irrel {α : Type} (l : List α) (d1 d2 : α) (h : l ≠ []) :
    l.getLastD d1 = l.getLastD d2 := by
  cases l with
  | nil => exact absurd rfl h
  | cons a rest => rw [List.getLastD_cons, List.getLastD_cons]

lemma splitChAux_no_sep (sep : Char) :
    ∀ (s acc : List Char), (∀ c ∈ s, c ≠ sep) → splitChAux sep s acc = [acc.reverse ++ s] := by
  intro s
  induction s with
  | nil => intro acc _; simp [splitChAux]
  | cons c rest ih =>
    intro acc h
    have hc : ¬ (c = sep) := h c (List.mem_cons_self c rest)
    simp only [splitChAux, if_neg hc]
    rw [ih (c :: acc) (fun x hx => h x (List.mem_cons_of_mem c hx))]
    simp

lemma getLastD_splitChAux_after_sep (sep : Char) (ys : List Char) :
    ∀ (xs acc : List Char),
      (splitChAux sep (xs ++ sep :: ys) acc).getLastD [] = (splitCh sep ys).getLastD [] := by
  intro xs
  induction xs with
  | nil =>
    intro acc
    have h1 : splitChAux sep ([] ++ sep :: ys) acc = acc.reverse :: splitChAux sep ys [] := by
      simp [splitChAux]
    rw [h1, List.getLastD_cons]
    exact getLastD_irrel _ _ _ (splitChAux_ne_nil sep ys [])
  | cons x xs ih =>
    intro acc
    by_cases hx : x = sep
    · have h1 : splitChAux sep ((x :: xs) ++ sep :: ys) acc
          = acc.reverse :: splitChAux sep (xs ++ sep :: ys) [] := by
        simp [splitChAux, hx]
      rw [h1, List.getLastD_cons,
        getLastD_irrel _ _ ([] : List Char) (splitChAux_ne_nil sep (xs ++ sep :: ys) [])]
      exact ih []
    · have h1 : splitChAux sep ((x :: xs) ++ sep :: ys) acc
          = splitChAux sep (xs ++ sep :: ys) (x :: acc) := by
        simp [splitChAux, hx]
      rw [h1]
      exact ih (x :: acc)

lemma splitChAux_mid (sep : Char) (ys : List Char) (hys : ∀ c ∈ ys, c ≠ sep) :
    ∀ (xs acc : List Char), (∀ c ∈ xs, c ≠ sep) →
      splitChAux sep (xs ++ sep :: ys) acc = [acc.reverse ++ xs, ys] := by
  intro xs
  induction xs with
  | nil =>
    intro acc _
    have h1 : splitChAux sep ([] ++ sep :: ys) acc = acc.reverse :: splitChAux sep ys [] := by
      simp [splitChAux]
    rw [h1, splitChAux_no_sep sep ys [] hys]
    simp
  | cons x xs ih =>
    intro acc h
    have hx : ¬ (x = sep) := h x (List.mem_cons_self x xs)
    have h1 : splitChAux sep ((x :: xs) ++ sep :: ys) acc
        = splitChAux sep (xs ++ sep :: ys) (x :: acc) := by
      simp [splitChAux, hx]
    rw [h1, ih (x :: acc) (fun c hc => h c (List.mem_cons_of_mem x hc))]
    simp

/-! ### The Range Condenser (`condense_interface_ranges`, src/main.py lines 12-55) -/

/-- The canonical interface-name prefix used throughout the source. -/
def ETH : List Char := "Ethernet1/".toList

/-- The canonical interface name `f"Ethernet1/{i}"`. -/
def ethName (i : Nat) : List Char := ETH ++ natDigits i

/-- The canonical identifier for an integer interface number. -/
def canonical (n : Int) : List Char := ETH ++ intStr n

/-- Lines 18-25: extract the parseable numeric suffixes, in input order.
An identifier contributes iff it starts with `Ethernet1/` and the text after
its last `/` parses as an int; all other identifiers are skipped. -/
def extractNums (interfaces : List (List Char)) : List Int :=
  interfaces.filterMap (fun itf =>
    if hasPfx ETH itf = true then pyInt? ((splitCh '/' itf).getLastD []) else none)

/-- Lines 42-45 and 50-53: render one run, `f"Ethernet1/{start}"` for a
singleton, `f"Ethernet1/{start}-{end}"` otherwise. -/
def renderRange (a b : Int) : List Char :=
  if a = b then ETH ++ intStr a else ETH ++ (intStr a ++ '-' :: intStr b)

/-- Lines 37-53: the grouping loop over the sorted numbers, carrying the
current run `[s, e]`. -/
def rangesLoop : List Int → Int → Int → List (List Char)
  | [], s, e => [renderRange s e]
  | n :: rest, s, e =>
    if n = e + 1 then rangesLoop rest s n
    else renderRange s e :: rangesLoop rest n n

/-- `condense_interface_ranges` (src/main.py lines 12-55): empty input gives
`[]`; if no identifier parses the original list is returned; otherwise the
sorted numbers are grouped into maximal consecutive runs. -/
def condense_interface_ranges (interfaces : List (List Char)) : List (List Char) :=
  if interfaces = [] then []
  else
    match List.insertionSort (· ≤ ·) (extractNums interfaces) with
    | [] => interfaces
    | n :: rest => rangesLoop rest n n

/-- Modelled from the spec (§8): `expand` "reverses range notation to explicit
IDs".  It is the spec's test-harness inverse for the idempotence property and
is not present in src/main.py.  A `"<first>-<last>"` range expands to the
explicit canonical identifiers; anything else passes through unchanged. -/
def expandSuffix (s : List Char) : List (List Char) → List (List Char)
  | a :: b :: [] =>
    match parseDigits? a, parseDigits? b with
    | some x, some y =>
      if x ≤ y then (List.range' x (y + 1 - x)).map (fun k => ETH ++ natDigits k)
      else [s]
    | _, _ => [s]
  | _ => [s]

/-- Modelled from the spec (§8): expansion of a single condensed entry. -/
def expandOne (s : List Char) : List (List Char) :=
  if hasPfx ETH s = true then expandSuffix s (splitCh '-' (s.drop 10))
  else [s]

/-- Modelled from the spec (§8): expansion of a condensed range list. -/
def expand (l : List (List Char)) : List (List Char) := l.flatMap expandOne

/-! ### Correctness of the condenser on canonical identifiers -/

lemma hasPfx_append (p t : List Char) : hasPfx p (p ++ t) = true := by
  induction p with
  | nil => rfl
  | cons c cs ih => simp [hasPfx, ih]

lemma intStr_nonneg (n : Int) (h : 0 ≤ n) : intStr n = natDigits n.toNat := by
  unfold intStr
  rw [if_neg (by omega)]

lemma ETH_split : ETH = "Ethernet1".toList ++ ['/'] := by decide

lemma ETH_body_no_slash : ∀ c ∈ "Ethernet1".toList, c ≠ '/' := by decide

lemma getLastD_splitSlash_canonical (tail : List Char) (h : ∀ c ∈ tail, c ≠ '/') :
    (splitCh '/' (ETH ++ tail)).getLastD [] = tail := by
  rw [ETH_split, List.append_assoc, List.singleton_append]
  unfold splitCh
  rw [getLastD_splitChAux_after_sep '/' tail "Ethernet1".toList []]
  unfold splitCh
  rw [splitChAux_no_sep '/' tail [] h]
  simp

lemma extractOne_canonical (n : Int) (h : 0 ≤ n) :
    (if hasPfx ETH (canonical n) = true
      then pyInt? ((splitCh '/' (canonical n)).getLastD []) else none) = some n := by
  unfold canonical
  rw [if_pos (hasPfx_append ETH (intStr n))]
  rw [intStr_nonneg n h,
    getLastD_splitSlash_canonical _
      (fun c hc => digit_ne_slash c (mem_natDigits_digit _ c hc)),
    pyInt_natDigits]
  rw [Int.toNat_of_nonneg h]

lemma extractNums_cons_some (x : List Char) (xs : List (List Char)) (v : Int)
    (h : (if hasPfx ETH x = true then pyInt? ((splitCh '/' x).getLastD []) else none) = some v) :
    extractNums (x :: xs) = v :: extractNums xs := by
  unfold extractNums
  rw [List.filterMap_cons]
  rw [h]

lemma extract_canonical (S : List Int) (h : ∀ n ∈ S, 0 ≤ n) :
    extractNums (S.map canonical) = S := by
  induction S with
  | nil => rfl
  | cons n rest ih =>
    rw [List.map_cons,
      extractNums_cons_some _ _ n (extractOne_canonical n (h n (List.mem_cons_self n rest)))]
    rw [ih (fun m hm => h m (List.mem_cons_of_mem n hm))]

lemma sorted_of_chain {S : List Int} (h : List.Chain' (· < ·) S) :
    List.Sorted (· ≤ ·) S :=
  (List.chain'_iff_pairwise.mp h).imp (fun hab => le_of_lt hab)

lemma insertionSort_of_perm {l S : List Int} (hp : l.Perm S)
    (hs : List.Sorted (· ≤ ·) S) : List.insertionSort (· ≤ ·) l = S :=
  List.eq_of_perm_of_sorted ((List.perm_insertionSort _ l).trans hp)
    (List.sorted_insertionSort _ l) hs

/-- The explicit integer enumeration `[s..e]` of a run (empty when `e < s`). -/
def intList (s e : Int) : List Int :=
  (List.range' s.toNat (e.toNat + 1 - s.toNat)).map (fun (k : Nat) => (k : Int))

lemma intList_single (s : Int) (h : 0 ≤ s) : intList s s = [s] := by
  unfold intList
  rw [show s.toNat + 1 - s.toNat = 1 by omega, List.range'_one]
  simp only [List.map_cons, List.map_nil]
  congr 1
  omega

lemma intList_concat (s e : Int) (h0 : 0 ≤ s) (hse : s ≤ e) :
    intList s (e + 1) = intList s e ++ [e + 1] := by
  unfold intList
  rw [show (e + 1).toNat + 1 - s.toNat = (e.toNat + 1 - s.toNat) + 1 by omega,
    List.range'_concat]
  rw [List.map_append]
  congr 1
  simp only [List.map_cons, List.map_nil, List.cons.injEq, and_true]
  omega

lemma expandOne_single (a : Int) (h : 0 ≤ a) :
    expandOne (canonical a) = [canonical a] := by
  unfold canonical expandOne
  rw [if_pos (hasPfx_append ETH (intStr a))]
  rw [List.drop_left' (by decide : ETH.length = 10), intStr_nonneg a h]
  unfold splitCh
  rw [splitChAux_no_sep '-' _ []
    (fun c hc => digit_ne_dash c (mem_natDigits_digit _ c hc))]
  rfl

lemma expandSuffix_pair (s d1 d2 : List Char) :
    expandSuffix s [d1, d2]
      = match parseDigits? d1, parseDigits? d2 with
        | some x, some y =>
          if x ≤ y then (List.range' x (y + 1 - x)).map (fun k => ETH ++ natDigits k)
          else [s]
        | _, _ => [s] := rfl

lemma expandOne_pair (a b : Int) (h0 : 0 ≤ a) (hab : a < b) :
    expandOne (renderRange a b) = (intList a b).map canonical := by
  unfold renderRange
  rw [if_neg (by omega)]
  unfold expandOne
  rw [if_pos (hasPfx_append ETH _)]
  rw [List.drop_left' (by decide : ETH.length = 10),
    intStr_nonneg a h0, intStr_nonneg b (by omega)]
  unfold splitCh
  rw [splitChAux_mid '-' _
    (fun c hc => digit_ne_dash c (mem_natDigits_digit _ c hc)) _ []
    (fun c hc => digit_ne_dash c (mem_natDigits_digit _ c hc))]
  simp only [List.reverse_nil, List.nil_append]
  rw [expandSuffix_pair]
  rw [parseDigits_natDigits, parseDigits_natDigits]
  show (if a.toNat ≤ b.toNat then
      (List.range' a.toNat (b.toNat + 1 - a.toNat)).map (fun k => ETH ++ natDigits k)
    else _) = _
  rw [if_pos (by omega)]
  unfold intList
  rw [List.map_map]
  apply List.map_congr_left
  intro k _
  show ETH ++ natDigits k = canonical ((k : Nat) : Int)
  unfold canonical
  rw [intStr_nonneg _ (by omega)]
  congr 1

lemma renderRange_single (a : Int) : renderRange a a = canonical a := by
  unfold renderRange canonical
  rw [if_pos rfl]

lemma expand_cons (x : List Char) (l : List (List Char)) :
    expand (x :: l) = expandOne x ++ expand l := by
  simp [expand]

lemma expand_rangesLoop :
    ∀ (rest : List Int) (s e : Int), 0 ≤ s → s ≤ e → List.Chain (· < ·) e rest →
      expand (rangesLoop rest s e) = (intList s e ++ rest).map canonical := by
  intro rest
  induction rest with
  | nil =>
    intro s e h0 hse _
    show expand [renderRange s e] = _
    rw [expand_cons]
    simp only [expand, List.flatMap_nil, List.append_nil]
    rcases eq_or_lt_of_le hse with hEq | hLt
    · subst hEq
      rw [renderRange_single, expandOne_single s h0, intList_single s h0]
      simp
    · rw [expandOne_pair s e h0 hLt]
  | cons n rest ih =>
    intro s e h0 hse hch
    have hen : e < n := List.rel_of_chain_cons hch
    have hch' : List.Chain (· < ·) n rest := List.chain_of_chain_cons hch
    show expand (if n = e + 1 then rangesLoop rest s n
        else renderRange s e :: rangesLoop rest n n) = _
    by_cases hn : n = e + 1
    · rw [if_pos hn, ih s n h0 (by omega) hch']
      subst hn
      rw [intList_concat s e h0 hse]
      simp
    · rw [if_neg hn]
      rw [expand_cons, ih n n (by omega) le_rfl hch']
      rcases eq_or_lt_of_le hse with hEq | hLt
      · subst hEq
        rw [renderRange_single, expandOne_single s h0, intList_single s h0,
          intList_single n (by omega)]
        simp
      · rw [expandOne_pair s e h0 hLt, intList_single n (by omega)]
        simp

lemma expand_condense (S : List Int) (hchain : List.Chain' (· < ·) S)
    (hpos : ∀ n ∈ S, 0 ≤ n) :
    expand (condense_interface_ranges (S.map canonical)) = S.map canonical := by
  cases S with
  | nil => rfl
  | cons m rest =>
    unfold condense_interface_ranges
    rw [if_neg (by simp)]
    rw [extract_canonical _ hpos, (sorted_of_chain hchain).insertionSort_eq]
    show expand (rangesLoop rest m m) = _
    have h0 : (0 : Int) ≤ m := hpos m (List.mem_cons_self m rest)
    rw [expand_rangesLoop rest m m h0 le_rfl hchain]
    rw [intList_single m h0]
    rfl

lemma mem_rangesLoop : ∀ (rest : List Int) (s e : Int) (x : List Char),
    x ∈ rangesLoop rest s e → ∃ a b, x = renderRange a b := by
  intro rest
  induction rest with
  | nil =>
    intro s e x hx
    simp only [rangesLoop, List.mem_singleton] at hx
    exact ⟨s, e, hx⟩
  | cons n rest ih =>
    intro s e x hx
    simp only [rangesLoop] at hx
    by_cases hn : n = e + 1
    · rw [if_pos hn] at hx
      exact ih s n x hx
    · rw [if_neg hn] at hx
      rcases List.mem_cons.mp hx with h | h
      · exact ⟨s, e, h⟩
      · exact ih n n x h

lemma hasPfx_renderRange (a b : Int) : hasPfx ETH (renderRange a b) = true := by
  unfold renderRange
  split
  · exact hasPfx_append _ _
  · exact hasPfx_append _ _

/-- C6: the claim states that unparseable identifiers are passed through
unmodified as their own singleton entries and that no input identifier is
silently dropped.  The code instead drops every unparseable identifier as soon
as at least one identifier parses: condensing `["Ethernet1/1", "mgmt0"]` yields
`["Ethernet1/1"]` with `"mgmt0"` absent from the output. -/
theorem condense_drops_unparseable_counterexample :
    condense_interface_ranges ["Ethernet1/1".toList, "mgmt0".toList]
        = ["Ethernet1/1".toList]
      ∧ "mgmt0".toList ∈ (["Ethernet1/1".toList, "mgmt0".toList] : List (List Char))
      ∧ "mgmt0".toList ∉ condense_interface_ranges ["Ethernet1/1".toList, "mgmt0".toList] := by
  refine ⟨by decide, by decide, ?_⟩
  intro h
  rw [(by decide : condense_interface_ranges ["Ethernet1/1".toList, "mgmt0".toList]
      = ["Ethernet1/1".toList])] at h
  exact absurd h (by decide)

/-- C6 (amended): when no identifier parses, the condenser returns the input
list unmodified; when at least one identifier parses, every entry of the
output carries the canonical `Ethernet1/` prefix of a rendered range, so
identifiers that fail to parse are silently dropped rather than passed
through (the parseable identifiers are still condensed). -/
theorem condense_unparseable_handling :
    (∀ ids : List (List Char), extractNums ids = []
      → condense_interface_ranges ids = ids)
    ∧ (∀ ids : List (List Char), extractNums ids ≠ []
      → ∀ s ∈ condense_interface_ranges ids, hasPfx ETH s = true) := by
  constructor
  · intro ids h
    unfold condense_interface_ranges
    split
    · rename_i h'
      exact h'.symm
    · rw [h]
      rfl
  · intro ids h s hs
    have hne : ids ≠ [] := by
      intro he
      subst he
      exact h rfl
    unfold condense_interface_ranges at hs
    rw [if_neg hne] at hs
    rcases hsort : List.insertionSort (· ≤ ·) (extractNums ids) with _ | ⟨n, rest⟩
    · have hperm := List.perm_insertionSort (· ≤ ·) (extractNums ids)
      rw [hsort] at hperm
      exact absurd (List.perm_nil.mp hperm.symm) h
    · rw [hsort] at hs
      obtain ⟨a, b, hab⟩ := mem_rangesLoop rest n n s hs
      rw [hab]
      exact hasPfx_renderRange a b

/-- Witness for `condense_unparseable_handling` at the concrete input
`["mgmt0"]`, in which no identifier parses. -/
theorem condense_unparseable_handling_witness :
    extractNums ["mgmt0".toList] = []
      ∧ condense_interface_ranges ["mgmt0".toList] = ["mgmt0".toList] :=
  ⟨by decide, condense_unparseable_handling.1 ["mgmt0".toList] (by decide)⟩

/-- C7: on every set of canonical parseable identifiers the condenser sorts
the numeric suffixes ascending (the input order is irrelevant: any permutation
condenses identically), groups maximal consecutive runs, renders a singleton
run as a single identifier and a longer run as `"<first>-<last>"`, and is
idempotent: re-expanding its output and condensing again reproduces the same
ranges.  In particular `condense {1,2,3,5,6,8} =
["Ethernet1/1-3", "Ethernet1/5-6", "Ethernet1/8"]`. -/
theorem condense_range_grouping_idempotent :
    (∀ S : List Int, List.Chain' (· < ·) S → (∀ n ∈ S, 0 ≤ n) →
      expand (condense_interface_ranges (S.map canonical)) = S.map canonical
      ∧ condense_interface_ranges (expand (condense_interface_ranges (S.map canonical)))
          = condense_interface_ranges (S.map canonical)
      ∧ ∀ l : List Int, l.Perm S →
          condense_interface_ranges (l.map canonical)
            = condense_interface_ranges (S.map canonical))
    ∧ condense_interface_ranges
        ["Ethernet1/1".toList, "Ethernet1/2".toList, "Ethernet1/3".toList,
          "Ethernet1/5".toList, "Ethernet1/6".toList, "Ethernet1/8".toList]
      = ["Ethernet1/1-3".toList, "Ethernet1/5-6".toList, "Ethernet1/8".toList] := by
  constructor
  · intro S hchain hpos
    have hec := expand_condense S hchain hpos
    refine ⟨hec, by rw [hec], ?_⟩
    intro l hperm
    cases S with
    | nil => rw [List.perm_nil.mp hperm]
    | cons m rest =>
      have hl_ne : l ≠ [] := by
        intro he
        subst he
        have := List.perm_nil.mp hperm.symm
        exact absurd this (by simp)
      have hpos' : ∀ n ∈ l, 0 ≤ n := fun n hn => hpos n (hperm.mem_iff.mp hn)
      unfold condense_interface_ranges
      rw [if_neg (by simp [hl_ne]), if_neg (by simp)]
      rw [extract_canonical l hpos', extract_canonical _ hpos]
      rw [insertionSort_of_perm hperm (sorted_of_chain hchain),
        (sorted_of_chain hchain).insertionSort_eq]
  · decide

/-- Witness for `condense_range_grouping_idempotent` at the concrete set
`{1, 2, 4}`. -/
theorem condense_range_grouping_idempotent_witness :
    List.Chain' (· < ·) [(1 : Int), 2, 4]
      ∧ condense_interface_ranges
          (expand (condense_interface_ranges ([(1 : Int), 2, 4].map canonical)))
        = condense_interface_ranges ([(1 : Int), 2, 4].map canonical) :=
  ⟨by norm_num [List.chain'_cons],
    ((condense_range_grouping_idempotent.1 [(1 : Int), 2, 4]
      (by norm_num [List.chain'_cons]) (by decide)).2).1⟩

/-! ### The Config-State Parser and Interface Classifier
(`validate_interfaces`, src/main.py lines 71-148) -/

/-- The state of the parsing loop (lines 88-92): the `current_interface`
cursor and the three accumulated Python `set`s, modelled as insertion-ordered
duplicate-free lists. -/
structure ParseState where
  current : Option (List Char)
  interfaces_with_profile : List (List Char)
  interfaces_with_baremetal : List (List Char)
  l3_interfaces : List (List Char)
deriving DecidableEq

/-- Line 88-92: `current_interface = None` and three empty sets. -/
def initParseState : ParseState := ⟨none, [], [], []⟩

/-- Python `set.add` on the insertion-ordered list model. -/
def addSet (s : List (List Char)) (x : List Char) : List (List Char) :=
  if x ∈ s then s else s ++ [x]

/-- Python truthiness of the `current_interface` variable: `None` and the
empty string are falsy. -/
def currentTruthy : Option (List Char) → Bool
  | none => false
  | some s => !s.isEmpty

/-- One iteration of the parser loop (lines 93-116).  Two behaviours to note:
a header line whose interface name is not tracked leaves the cursor unchanged
(the `if` at lines 98-102 has no else branch), and the BAREMETAL test at line
115 is a substring containment test on the whole line. -/
def lineStep (st : ParseState) (rawLine : List Char) : ParseState :=
  let line := stripChars rawLine
  if hasPfx "interface ".toList line = true then
    let parts := pySplitWs line
    let interface_part := parts.getD 1 []
    if (containsSub "ethernet1/".toList (lowerStr interface_part)
        || containsSub "eth1/".toList (lowerStr interface_part)) = true then
      let c1 := pyReplace "Eth1/".toList ETH interface_part
      let c2 := if hasPfx "ethernet1/".toList c1 = true
        then pyReplace "ethernet1/".toList ETH c1 else c1
      { st with current := some c2 }
    else st
  else if (currentTruthy st.current
      && (hasPfx "ip address".toList line || hasPfx "ipv6 address".toList line
        || hasPfx "no switchport".toList line
        || containsSub "routed".toList (lowerStr line))) = true then
    { st with l3_interfaces := addSet st.l3_interfaces (st.current.getD []) }
  else if (hasPfx "inherit port-profile".toList line && currentTruthy st.current) = true then
    let st' := { st with
      interfaces_with_profile := addSet st.interfaces_with_profile (st.current.getD []) }
    if containsSub "inherit port-profile BAREMETAL".toList line = true then
      { st' with
        interfaces_with_baremetal := addSet st'.interfaces_with_baremetal (st.current.getD []) }
    else st'
  else st

/-- Lines 87-116: parse the raw `show running-config interface` text into the
cursor/fact-set state. -/
def parseFacts (rawConfig : List Char) : ParseState :=
  (splitCh '\n' rawConfig).foldl lineStep initParseState

/-- The four mutually exclusive policy states of the spec's data model, in
correspondence with the four branches of the classification loop. -/
inductive ClassificationState where
  | L3_SKIPPED
  | ALREADY_COMPLIANT
  | OTHER_PROFILE_PRESENT
  | NON_COMPLIANT
deriving DecidableEq

/-- The branch selection of the classification loop body (lines 121-135):
membership tests against the three parsed sets, in the code's order. -/
def classify (l3 wp wb : List (List Char)) (itf : List Char) : ClassificationState :=
  if itf ∈ l3 then .L3_SKIPPED
  else if itf ∈ wb then .ALREADY_COMPLIANT
  else if itf ∈ wp then .OTHER_PROFILE_PRESENT
  else .NON_COMPLIANT

/-- The `validation_results` dictionary (lines 77-84). -/
structure ValidationResults where
  port_profile_applied : Nat
  port_profile_missing : List (List Char)
  port_profile_already_applied : List (List Char)
  port_profile_failed : List (List Char)
  l3_interfaces_skipped : List (List Char)
  validation_passed : Bool
deriving DecidableEq

/-- Lines 77-84: the initial dictionary. -/
def initResults : ValidationResults := ⟨0, [], [], [], [], true⟩

/-- One iteration of the classification loop (lines 119-136), updating the
fields touched by the branch the code selects. -/
def classifyStep (l3 wp wb : List (List Char)) (r : ValidationResults) (i : Nat) :
    ValidationResults :=
  match classify l3 wp wb (ethName i) with
  | .L3_SKIPPED =>
    { r with l3_interfaces_skipped := r.l3_interfaces_skipped ++ [ethName i],
             port_profile_applied := r.port_profile_applied + 1 }
  | .ALREADY_COMPLIANT =>
    { r with port_profile_applied := r.port_profile_applied + 1,
             port_profile_already_applied := r.port_profile_already_applied ++ [ethName i] }
  | .OTHER_PROFILE_PRESENT =>
    { r with port_profile_applied := r.port_profile_applied + 1,
             port_profile_already_applied := r.port_profile_already_applied ++ [ethName i] }
  | .NON_COMPLIANT =>
    { r with port_profile_missing := r.port_profile_missing ++ [ethName i],
             port_profile_failed := r.port_profile_failed ++ [ethName i] }

/-- Lines 119-140: the loop `for i in range(1, 47)` followed by the final
`validation_passed` update (lines 139-140). -/
def runClassification (l3 wp wb : List (List Char)) : ValidationResults :=
  let r := (List.range' 1 46).foldl (classifyStep l3 wp wb) initResults
  { r with validation_passed := r.port_profile_missing.isEmpty }

/-- `validate_interfaces` (lines 71-148) as the pure function of the captured
`show running-config interface` text; the netmiko capture and the outer
try/except are I/O outside the modelled core. -/
def validate_interfaces (rawConfig : List Char) : ValidationResults :=
  runClassification (parseFacts rawConfig).l3_interfaces
    (parseFacts rawConfig).interfaces_with_profile
    (parseFacts rawConfig).interfaces_with_baremetal

lemma ethName_inj {i j : Nat} (h : ethName i = ethName j) : i = j := by
  unfold ethName at h
  exact natDigits_inj (List.append_cancel_left h)

lemma foldl_l3_skipped (l3 wp wb : List (List Char)) :
    ∀ (js : List Nat) (r : ValidationResults),
      (js.foldl (classifyStep l3 wp wb) r).l3_interfaces_skipped
        = r.l3_interfaces_skipped
          ++ (js.filter (fun i => decide (classify l3 wp wb (ethName i)
              = ClassificationState.L3_SKIPPED))).map ethName := by
  intro js
  induction js with
  | nil => intro r; simp
  | cons i js ih =>
    intro r
    rw [List.foldl_cons, ih]
    rcases hc : classify l3 wp wb (ethName i) with _ | _ | _ | _ <;>
      simp [classifyStep, hc, List.filter_cons]

lemma foldl_already_applied (l3 wp wb : List (List Char)) :
    ∀ (js : List Nat) (r : ValidationResults),
      (js.foldl (classifyStep l3 wp wb) r).port_profile_already_applied
        = r.port_profile_already_applied
          ++ (js.filter (fun i => decide (classify l3 wp wb (ethName i)
                = ClassificationState.ALREADY_COMPLIANT)
              || decide (classify l3 wp wb (ethName i)
                = ClassificationState.OTHER_PROFILE_PRESENT))).map ethName := by
  intro js
  induction js with
  | nil => intro r; simp
  | cons i js ih =>
    intro r
    rw [List.foldl_cons, ih]
    rcases hc : classify l3 wp wb (ethName i) with _ | _ | _ | _ <;>
      simp [classifyStep, hc, List.filter_cons]

lemma foldl_missing (l3 wp wb : List (List Char)) :
    ∀ (js : List Nat) (r : ValidationResults),
      (js.foldl (classifyStep l3 wp wb) r).port_profile_missing
        = r.port_profile_missing
          ++ (js.filter (fun i => decide (classify l3 wp wb (ethName i)
              = ClassificationState.NON_COMPLIANT))).map ethName := by
  intro js
  induction js with
  | nil => intro r; simp
  | cons i js ih =>
    intro r
    rw [List.foldl_cons, ih]
    rcases hc : classify l3 wp wb (ethName i) with _ | _ | _ | _ <;>
      simp [classifyStep, hc, List.filter_cons]

lemma foldl_applied_count (l3 wp wb : List (List Char)) :
    ∀ (js : List Nat) (r : ValidationResults),
      (js.foldl (classifyStep l3 wp wb) r).port_profile_applied
          + ((js.foldl (classifyStep l3 wp wb) r).port_profile_missing).length
        = r.port_profile_applied + r.port_profile_missing.length + js.length := by
  intro js
  induction js with
  | nil => intro r; simp
  | cons i js ih =>
    intro r
    rw [List.foldl_cons, ih]
    rcases hc : classify l3 wp wb (ethName i) with _ | _ | _ | _ <;>
      simp [classifyStep, hc] <;> omega

lemma mem_filter_map_ethName (i : Nat) (h1 : 1 ≤ i) (h2 : i ≤ 46) (p : Nat → Bool) :
    (ethName i ∈ ((List.range' 1 46).filter p).map ethName) ↔ p i = true := by
  constructor
  · intro hm
    obtain ⟨j, hj, hji⟩ := List.mem_map.mp hm
    have hij := ethName_inj hji
    subst hij
    exact (List.mem_filter.mp hj).2
  · intro hp
    exact List.mem_map.mpr
      ⟨i, List.mem_filter.mpr ⟨List.mem_range'_1.mpr ⟨h1, by omega⟩, hp⟩, rfl⟩

/-- C1: for every parsed snapshot (the three fact sets produced by the
parser) and every interface `Ethernet1/1` through `Ethernet1/46`, the
classifier assigns exactly one state with the fixed precedence: an interface
whose facts mark it Layer-3 is `L3_SKIPPED` even if it is also marked with the
target profile; otherwise a target-profile mark gives `ALREADY_COMPLIANT`;
otherwise any other inherited-profile mark gives `OTHER_PROFILE_PRESENT`;
otherwise — in particular when no configuration block was seen at all — the
interface is `NON_COMPLIANT`.  The three output lists of the validation
result partition accordingly, each interface landing in exactly one. -/
theorem classify_precedence_and_partition (l3 wp wb : List (List Char)) (i : Nat)
    (h1 : 1 ≤ i) (h2 : i ≤ 46) :
    (classify l3 wp wb (ethName i) = .L3_SKIPPED ↔ ethName i ∈ l3)
    ∧ (classify l3 wp wb (ethName i) = .ALREADY_COMPLIANT
        ↔ (ethName i ∉ l3 ∧ ethName i ∈ wb))
    ∧ (classify l3 wp wb (ethName i) = .OTHER_PROFILE_PRESENT
        ↔ (ethName i ∉ l3 ∧ ethName i ∉ wb ∧ ethName i ∈ wp))
    ∧ (classify l3 wp wb (ethName i) = .NON_COMPLIANT
        ↔ (ethName i ∉ l3 ∧ ethName i ∉ wb ∧ ethName i ∉ wp))
    ∧ (ethName i ∈ (runClassification l3 wp wb).l3_interfaces_skipped
        ↔ classify l3 wp wb (ethName i) = .L3_SKIPPED)
    ∧ (ethName i ∈ (runClassification l3 wp wb).port_profile_already_applied
        ↔ (classify l3 wp wb (ethName i) = .ALREADY_COMPLIANT
          ∨ classify l3 wp wb (ethName i) = .OTHER_PROFILE_PRESENT))
    ∧ (ethName i ∈ (runClassification l3 wp wb).port_profile_missing
        ↔ classify l3 wp wb (ethName i) = .NON_COMPLIANT)
    ∧ (ethName i ∈ (runClassification l3 wp wb).l3_interfaces_skipped
        ∨ ethName i ∈ (runClassification l3 wp wb).port_profile_already_applied
        ∨ ethName i ∈ (runClassification l3 wp wb).port_profile_missing)
    ∧ ¬(ethName i ∈ (runClassification l3 wp wb).l3_interfaces_skipped
        ∧ ethName i ∈ (runClassification l3 wp wb).port_profile_already_applied)
    ∧ ¬(ethName i ∈ (runClassification l3 wp wb).l3_interfaces_skipped
        ∧ ethName i ∈ (runClassification l3 wp wb).port_profile_missing)
    ∧ ¬(ethName i ∈ (runClassification l3 wp wb).port_profile_already_applied
        ∧ ethName i ∈ (runClassification l3 wp wb).port_profile_missing) := by
  have hA : ethName i ∈ (runClassification l3 wp wb).l3_interfaces_skipped
      ↔ classify l3 wp wb (ethName i) = .L3_SKIPPED := by
    show ethName i ∈ ((List.range' 1 46).foldl (classifyStep l3 wp wb)
        initResults).l3_interfaces_skipped ↔ _
    rw [foldl_l3_skipped]
    simp [initResults, mem_filter_map_ethName i h1 h2]
  have hB : ethName i ∈ (runClassification l3 wp wb).port_profile_already_applied
      ↔ (classify l3 wp wb (ethName i) = .ALREADY_COMPLIANT
        ∨ classify l3 wp wb (ethName i) = .OTHER_PROFILE_PRESENT) := by
    show ethName i ∈ ((List.range' 1 46).foldl (classifyStep l3 wp wb)
        initResults).port_profile_already_applied ↔ _
    rw [foldl_already_applied]
    simp [initResults, mem_filter_map_ethName i h1 h2]
  have hC : ethName i ∈ (runClassification l3 wp wb).port_profile_missing
      ↔ classify l3 wp wb (ethName i) = .NON_COMPLIANT := by
    show ethName i ∈ ((List.range' 1 46).foldl (classifyStep l3 wp wb)
        initResults).port_profile_missing ↔ _
    rw [foldl_missing]
    simp [initResults, mem_filter_map_ethName i h1 h2]
  have hcl : (classify l3 wp wb (ethName i) = .L3_SKIPPED ↔ ethName i ∈ l3)
      ∧ (classify l3 wp wb (ethName i) = .ALREADY_COMPLIANT
        ↔ (ethName i ∉ l3 ∧ ethName i ∈ wb))
      ∧ (classify l3 wp wb (ethName i) = .OTHER_PROFILE_PRESENT
        ↔ (ethName i ∉ l3 ∧ ethName i ∉ wb ∧ ethName i ∈ wp))
      ∧ (classify l3 wp wb (ethName i) = .NON_COMPLIANT
        ↔ (ethName i ∉ l3 ∧ ethName i ∉ wb ∧ ethName i ∉ wp)) := by
    unfold classify
    split_ifs with hx hy hz <;> simp_all
  refine ⟨hcl.1, hcl.2.1, hcl.2.2.1, hcl.2.2.2, hA, hB, hC, ?_, ?_, ?_, ?_⟩ <;>
    rcases hc : classify l3 wp wb (ethName i) with _ | _ | _ | _ <;>
      simp [hA, hB, hC, hc]

/-- Witness for `classify_precedence_and_partition` at interface 5 with facts
marking `Ethernet1/5` as Layer-3. -/
theorem classify_precedence_and_partition_witness :
    (1 ≤ 5 ∧ 5 ≤ 46)
    ∧ (classify [ethName 5] [] [] (ethName 5) = .L3_SKIPPED
        ↔ ethName 5 ∈ [ethName 5]) :=
  ⟨⟨by norm_num, by norm_num⟩,
    (classify_precedence_and_partition [ethName 5] [] [] 5
      (by norm_num) (by norm_num)).1⟩

/-- C10: for every parsed snapshot, `validation_passed` is `false` iff some
interface in `Ethernet1/1..46` classifies `NON_COMPLIANT` (equivalently, iff
`port_profile_missing` is non-empty — so `L3_SKIPPED`, `ALREADY_COMPLIANT`
and `OTHER_PROFILE_PRESENT` interfaces never fail validation), and the
`port_profile_applied` counter plus the number of missing interfaces always
equals 46. -/
theorem validation_passed_iff_missing (l3 wp wb : List (List Char)) :
    ((runClassification l3 wp wb).validation_passed = false
      ↔ ∃ i, 1 ≤ i ∧ i ≤ 46
          ∧ classify l3 wp wb (ethName i) = .NON_COMPLIANT)
    ∧ ((runClassification l3 wp wb).validation_passed = false
      ↔ (runClassification l3 wp wb).port_profile_missing ≠ [])
    ∧ (runClassification l3 wp wb).port_profile_applied
        + ((runClassification l3 wp wb).port_profile_missing).length = 46 := by
  have hmiss : (runClassification l3 wp wb).port_profile_missing
      = ((List.range' 1 46).filter (fun i => decide (classify l3 wp wb (ethName i)
          = ClassificationState.NON_COMPLIANT))).map ethName := by
    show ((List.range' 1 46).foldl (classifyStep l3 wp wb)
        initResults).port_profile_missing = _
    rw [foldl_missing]
    simp [initResults]
  have hpass : (runClassification l3 wp wb).validation_passed
      = ((List.range' 1 46).foldl (classifyStep l3 wp wb)
          initResults).port_profile_missing.isEmpty := rfl
  have hne : (runClassification l3 wp wb).validation_passed = false
      ↔ (runClassification l3 wp wb).port_profile_missing ≠ [] := by
    rw [hpass]
    show (((List.range' 1 46).foldl (classifyStep l3 wp wb)
        initResults).port_profile_missing).isEmpty = false ↔ _
    simp [List.isEmpty_iff]
    exact Iff.rfl
  refine ⟨?_, hne, ?_⟩
  · rw [hne, hmiss]
    constructor
    · intro h
      obtain ⟨x, hx⟩ := List.exists_mem_of_ne_nil _ h
      obtain ⟨j, hj, hji⟩ := List.mem_map.mp hx
      have hjr := List.mem_range'_1.mp (List.mem_filter.mp hj).1
      have hjc := (List.mem_filter.mp hj).2
      exact ⟨j, hjr.1, by omega, by simpa using hjc⟩
    · intro ⟨j, hj1, hj46, hjc⟩
      intro hnil
      have : ethName j ∈ (((List.range' 1 46).filter
          (fun i => decide (classify l3 wp wb (ethName i)
            = ClassificationState.NON_COMPLIANT))).map ethName) :=
        (mem_filter_map_ethName j hj1 hj46 _).mpr (by simpa using hjc)
      rw [hnil] at this
      exact absurd this (List.not_mem_nil _)
  · have hcount := foldl_applied_count l3 wp wb (List.range' 1 46) initResults
    have happ : (runClassification l3 wp wb).port_profile_applied
        = ((List.range' 1 46).foldl (classifyStep l3 wp wb)
            initResults).port_profile_applied := rfl
    have hm : (runClassification l3 wp wb).port_profile_missing
        = ((List.range' 1 46).foldl (classifyStep l3 wp wb)
            initResults).port_profile_missing := rfl
    rw [happ, hm, hcount]
    simp [initResults]

/-- A configuration snapshot in which a tracked interface block is followed
by an untracked header (`interface mgmt0`) whose body carries an IP address. -/
def cfgUntracked : List Char :=
  "interface Ethernet1/1\ninterface mgmt0\n  ip address 10.0.0.1/24".toList

/-- C2 (failing input): the parser does attribute facts from the body of an
untracked header's block to the previously tracked interface.  After
`interface mgmt0`, the cursor still holds `Ethernet1/1`, so `mgmt0`'s
`ip address` line marks `Ethernet1/1` as Layer-3 and the validation classifies
`Ethernet1/1` as `L3_SKIPPED` instead of `NON_COMPLIANT`. -/
theorem untracked_block_attribution :
    (parseFacts cfgUntracked).l3_interfaces = [ethName 1]
    ∧ (parseFacts cfgUntracked).current = some (ethName 1)
    ∧ ethName 1 ∈ (validate_interfaces cfgUntracked).l3_interfaces_skipped
    ∧ ethName 1 ∉ (validate_interfaces cfgUntracked).port_profile_missing := by
  decide

/-- The C9 failing input: a lower-case short-form header. -/
def cfgShortLower : List Char :=
  "interface eth1/5\n  inherit port-profile BAREMETAL".toList

/-- The C9 upper-case long-form header. -/
def cfgUpper : List Char :=
  "interface ETHERNET1/5\n  inherit port-profile BAREMETAL".toList

/-- C9 (failing input): the header match is case-insensitive but the
normalization is case-sensitive.  `eth1/5` and `ETHERNET1/5` are tracked with
their names left unnormalized, so their recorded BAREMETAL fact never matches
the canonical `Ethernet1/5`, which classifies `NON_COMPLIANT`; only the exact
spellings `Eth1/5`, `ethernet1/5` and `Ethernet1/5` reach the canonical form. -/
theorem casing_normalization :
    (parseFacts cfgShortLower).interfaces_with_baremetal = ["eth1/5".toList]
    ∧ classify (parseFacts cfgShortLower).l3_interfaces
        (parseFacts cfgShortLower).interfaces_with_profile
        (parseFacts cfgShortLower).interfaces_with_baremetal (ethName 5)
      = .NON_COMPLIANT
    ∧ ethName 5 ∈ (validate_interfaces cfgShortLower).port_profile_missing
    ∧ (parseFacts cfgUpper).interfaces_with_baremetal = ["ETHERNET1/5".toList]
    ∧ (parseFacts "interface Eth1/5\n  inherit port-profile BAREMETAL".toList).interfaces_with_baremetal
      = [ethName 5]
    ∧ (parseFacts "interface ethernet1/5\n  inherit port-profile BAREMETAL".toList).interfaces_with_baremetal
      = [ethName 5] := by
  decide

/-- A block pathologically containing two inherit statements, the target
profile first. -/
def cfgTwoInherits : List Char :=
  "interface Ethernet1/2\n  inherit port-profile BAREMETAL\n  inherit port-profile OTHER".toList

/-- C3 (counterexample): the claim says the last inherit statement wins, so a
block with `inherit port-profile BAREMETAL` followed by `inherit port-profile
OTHER` should classify `OTHER_PROFILE_PRESENT`.  The code only accumulates
set membership and never overwrites, so the interface stays marked BAREMETAL
and classifies `ALREADY_COMPLIANT`. -/
theorem last_inherit_wins_counterexample :
    classify (parseFacts cfgTwoInherits).l3_interfaces
        (parseFacts cfgTwoInherits).interfaces_with_profile
        (parseFacts cfgTwoInherits).interfaces_with_baremetal (ethName 2)
      = .ALREADY_COMPLIANT
    ∧ ClassificationState.ALREADY_COMPLIANT ≠ ClassificationState.OTHER_PROFILE_PRESENT
    ∧ ethName 2 ∈ (parseFacts cfgTwoInherits).interfaces_with_baremetal
    ∧ ethName 2 ∈ (parseFacts cfgTwoInherits).interfaces_with_profile := by
  decide

lemma mem_addSet (s : List (List Char)) (x y : List Char) (h : x ∈ s) :
    x ∈ addSet s y := by
  unfold addSet
  split
  · exact h
  · exact List.mem_append_left _ h

lemma lineStep_wb_mono (st : ParseState) (l itf : List Char)
    (h : itf ∈ st.interfaces_with_baremetal) :
    itf ∈ (lineStep st l).interfaces_with_baremetal := by
  simp only [lineStep]
  split
  · split
    · exact h
    · exact h
  · split
    · exact h
    · split
      · split
        · exact mem_addSet _ _ _ h
        · exact h
      · exact h

/-- C3 (amended): the parser accumulates inherit facts and never overwrites
them: once an interface is marked as carrying the BAREMETAL profile, the mark
persists through every later line.  Consequently a block containing `inherit
port-profile BAREMETAL` followed by `inherit port-profile OTHER` classifies
`ALREADY_COMPLIANT` (first matching inherit sticks), not
`OTHER_PROFILE_PRESENT`. -/
theorem inherit_marks_accumulate :
    (∀ (st : ParseState) (ls : List (List Char)) (itf : List Char),
      itf ∈ st.interfaces_with_baremetal
        → itf ∈ (ls.foldl lineStep st).interfaces_with_baremetal)
    ∧ classify (parseFacts cfgTwoInherits).l3_interfaces
        (parseFacts cfgTwoInherits).interfaces_with_profile
        (parseFacts cfgTwoInherits).interfaces_with_baremetal (ethName 2)
      = .ALREADY_COMPLIANT := by
  constructor
  · intro st ls
    induction ls generalizing st with
    | nil => intro itf h; exact h
    | cons l ls ih =>
      intro itf h
      rw [List.foldl_cons]
      exact ih (lineStep st l) itf (lineStep_wb_mono st l itf h)
  · decide

/-- Witness for `inherit_marks_accumulate`: a concrete BAREMETAL mark
surviving a later line. -/
theorem inherit_marks_accumulate_witness :
    ethName 1 ∈ (⟨none, [], [ethName 1], []⟩ : ParseState).interfaces_with_baremetal
    ∧ ethName 1 ∈ (["inherit port-profile OTHER".toList].foldl lineStep
        (⟨none, [], [ethName 1], []⟩ : ParseState)).interfaces_with_baremetal :=
  ⟨by decide,
    inherit_marks_accumulate.1 ⟨none, [], [ethName 1], []⟩
      ["inherit port-profile OTHER".toList] (ethName 1) (by decide)⟩

/-! ### The Reconciliation Analyzer (`analyze_config_failures`, lines 150-184) -/

/-- The analysis dictionary returned by `analyze_config_failures` (lines
175-184).  Python `set`s are modelled as `Finset` (the source only consumes
them through membership, cardinality and serialization); the
`configuration_success_rate` string `f"{c}/{a} ({p:.1f}%)"` is modelled by its
three numeric components, with the float percentage as the exact rational it
formats. -/
structure FailureAnalysis where
  hostname : List Char
  total_target_interfaces : Nat
  before_missing_count : Nat
  after_missing_count : Nat
  successfully_configured : Finset (List Char)
  still_missing : Finset (List Char)
  new_failures : Finset (List Char)
  total_configured : Nat
  total_attempted : Nat
  success_percentage : ℚ

/-- The body of `analyze_config_failures` after its guard (lines 155-184). -/
def analyzeCore (b a : ValidationResults) (hostname : List Char) : FailureAnalysis :=
  { hostname := hostname
    total_target_interfaces := 46
    before_missing_count := b.port_profile_missing.toFinset.card
    after_missing_count := a.port_profile_missing.toFinset.card
    successfully_configured := b.port_profile_missing.toFinset \ a.port_profile_missing.toFinset
    still_missing := b.port_profile_missing.toFinset ∩ a.port_profile_missing.toFinset
    new_failures := a.port_profile_missing.toFinset \ b.port_profile_missing.toFinset
    total_configured := (b.port_profile_missing.toFinset \ a.port_profile_missing.toFinset).card
    total_attempted := b.port_profile_missing.toFinset.card
    success_percentage :=
      if 0 < b.port_profile_missing.toFinset.card then
        (((b.port_profile_missing.toFinset \ a.port_profile_missing.toFinset).card : ℚ)
          / (b.port_profile_missing.toFinset.card : ℚ)) * 100
      else 100 }

/-- `analyze_config_failures` (lines 150-184); the guard at lines 152-153
returns `None` when either validation dict is absent or falsy, modelled by
`Option` inputs. -/
def analyze_config_failures (before_validation after_validation : Option ValidationResults)
    (hostname : List Char) : Option FailureAnalysis :=
  match before_validation, after_validation with
  | some b, some a => some (analyzeCore b a hostname)
  | _, _ => none

/-- The spec's reconciliation scenario, pre snapshot: interfaces 1-3
`NON_COMPLIANT`, interface 4 `L3_SKIPPED`. -/
def preScenario : ValidationResults :=
  ⟨1, [ethName 1, ethName 2, ethName 3], [], [ethName 1, ethName 2, ethName 3],
    [ethName 4], false⟩

/-- The spec's reconciliation scenario, post snapshot: interfaces 1-2 now
compliant, 3 still `NON_COMPLIANT`, 4 `L3_SKIPPED`. -/
def postScenario : ValidationResults :=
  ⟨3, [ethName 3], [ethName 1, ethName 2], [ethName 3], [ethName 4], false⟩

/-- C4: for every pair of pre/post validation results, the analyzer computes
`successfully_configured` (newlyCompliant) as the pre-missing set minus the
post-missing set, `still_missing` as their intersection, `new_failures`
(regressed) as post minus pre, and the success percentage as
configured/attempted × 100 with the empty pre-missing case defined as 100%.
On the concrete scenario pre = {1,2,3 missing, 4 L3-skipped}, post = {3
missing, 4 L3-skipped} it returns newlyCompliant = {1,2}, stillNonCompliant =
{3} and rate 2/3 (the percentage 200/3 ≈ 66.7%). -/
theorem analyze_sets_and_rate :
    (∀ (b a : ValidationResults) (host : List Char),
      ∃ fa, analyze_config_failures (some b) (some a) host = some fa
        ∧ (∀ x, x ∈ fa.successfully_configured
            ↔ (x ∈ b.port_profile_missing ∧ x ∉ a.port_profile_missing))
        ∧ (∀ x, x ∈ fa.still_missing
            ↔ (x ∈ b.port_profile_missing ∧ x ∈ a.port_profile_missing))
        ∧ (∀ x, x ∈ fa.new_failures
            ↔ (x ∈ a.port_profile_missing ∧ x ∉ b.port_profile_missing))
        ∧ fa.total_attempted = b.port_profile_missing.toFinset.card
        ∧ fa.success_percentage
            = (if fa.total_attempted = 0 then 100
              else (fa.total_configured : ℚ) * 100 / (fa.total_attempted : ℚ)))
    ∧ (∃ fa, analyze_config_failures (some preScenario) (some postScenario) [] = some fa
        ∧ fa.successfully_configured = {ethName 1, ethName 2}
        ∧ fa.still_missing = {ethName 3}
        ∧ fa.new_failures = ∅
        ∧ fa.total_configured = 2
        ∧ fa.total_attempted = 3
        ∧ fa.success_percentage = 200 / 3) := by
  constructor
  · intro b a host
    refine ⟨analyzeCore b a host, rfl, ?_, ?_, ?_, rfl, ?_⟩
    · intro x
      simp [analyzeCore, Finset.mem_sdiff, List.mem_toFinset]
    · intro x
      simp [analyzeCore, Finset.mem_inter, List.mem_toFinset]
    · intro x
      simp [analyzeCore, Finset.mem_sdiff, List.mem_toFinset]
    · show (if 0 < b.port_profile_missing.toFinset.card then
          (((b.port_profile_missing.toFinset \ a.port_profile_missing.toFinset).card : ℚ)
            / (b.port_profile_missing.toFinset.card : ℚ)) * 100
        else 100)
        = (if b.port_profile_missing.toFinset.card = 0 then (100 : ℚ)
          else ((b.port_profile_missing.toFinset \ a.port_profile_missing.toFinset).card : ℚ)
            * 100 / (b.port_profile_missing.toFinset.card : ℚ))
      by_cases hc : b.port_profile_missing.toFinset.card = 0
      · rw [if_neg (by omega), if_pos hc]
      · rw [if_pos (by omega), if_neg hc, div_mul_eq_mul_div]
  · refine ⟨_, rfl, by decide, by decide, by decide, by decide, by decide, ?_⟩
    show (if 0 < preScenario.port_profile_missing.toFinset.card then
        (((preScenario.port_profile_missing.toFinset
            \ postScenario.port_profile_missing.toFinset).card : ℚ)
          / (preScenario.port_profile_missing.toFinset.card : ℚ)) * 100
      else 100) = 200 / 3
    rw [show (preScenario.port_profile_missing.toFinset
        \ postScenario.port_profile_missing.toFinset).card = 2 from by decide,
      show preScenario.port_profile_missing.toFinset.card = 3 from by decide]
    norm_num

/-- C5 (counterexample): the claim says the analyzer on identical pre and
post classifications yields a 100% success rate.  Running it with the
validation of the empty configuration (all 46 interfaces missing) on both
sides yields a 0% rate, because 0 of 46 attempted interfaces were
configured. -/
theorem analyze_identical_zero_counterexample :
    ∃ fa, analyze_config_failures (some (validate_interfaces []))
        (some (validate_interfaces [])) [] = some fa
      ∧ fa.success_percentage = 0
      ∧ fa.total_attempted = 46
      ∧ (0 : ℚ) ≠ 100 := by
  refine ⟨_, rfl, ?_, by decide, by norm_num⟩
  show (if 0 < (validate_interfaces []).port_profile_missing.toFinset.card then
      ((((validate_interfaces []).port_profile_missing.toFinset
          \ (validate_interfaces []).port_profile_missing.toFinset).card : ℚ)
        / ((validate_interfaces []).port_profile_missing.toFinset.card : ℚ)) * 100
    else 100) = 0
  rw [Finset.sdiff_self,
    show (validate_interfaces []).port_profile_missing.toFinset.card = 46 from by decide]
  norm_num

/-- C5 (amended): on identical pre/post validation results the analyzer
returns empty newlyCompliant and regressed sets, and a success rate of 100%
only in the 0/0 case (empty pre-missing set); when the identical snapshots
still have missing interfaces the rate is 0%, not 100%. -/
theorem analyze_identical :
    ∀ (v : ValidationResults) (host : List Char),
      ∃ fa, analyze_config_failures (some v) (some v) host = some fa
        ∧ fa.successfully_configured = ∅
        ∧ fa.new_failures = ∅
        ∧ fa.success_percentage
            = (if v.port_profile_missing.toFinset.card = 0 then 100 else 0) := by
  intro v host
  refine ⟨analyzeCore v v host, rfl, ?_, ?_, ?_⟩
  · simp [analyzeCore]
  · simp [analyzeCore]
  · show (if 0 < v.port_profile_missing.toFinset.card then
        (((v.port_profile_missing.toFinset \ v.port_profile_missing.toFinset).card : ℚ)
          / (v.port_profile_missing.toFinset.card : ℚ)) * 100
      else 100) = _
    rw [Finset.sdiff_self]
    by_cases hc : v.port_profile_missing.toFinset.card = 0
    · rw [if_neg (by omega), if_pos hc]
    · rw [if_pos (by omega), if_neg hc]
      simp

/-! ### The Text Filter and Diff Engine
(`filter_config_lines` lines 201-214, `create_diff` lines 216-237) -/

/-- `filter_config_lines` (lines 201-214): falsy input yields the empty
string; otherwise split on newlines, keep the lines that do not start (after
stripping) with `!`, and rejoin with newlines. -/
def filter_config_lines (config_text : List Char) : List Char :=
  if config_text = [] then []
  else List.intercalate ['\n']
    ((splitCh '\n' config_text).filter (fun line => !(hasPfx ['!'] (stripChars line))))

/-- Python `str.splitlines(keepends=True)` restricted to `\n` boundaries (the
configuration text uses `\n`). -/
def splitKeepEndsAux : List Char → List Char → List (List Char)
  | [], acc => if acc = [] then [] else [acc.reverse]
  | c :: rest, acc =>
    if c = '\n' then (acc.reverse ++ ['\n']) :: splitKeepEndsAux rest []
    else splitKeepEndsAux rest (c :: acc)

/-- Python `s.splitlines(keepends=True)`. -/
def splitKeepEnds (s : List Char) : List (List Char) := splitKeepEndsAux s []

/-- `create_diff` (lines 216-237): filter both texts; if the filtered texts
are equal return `None` (no diff is computed); otherwise hand the
keepends-split filtered line lists to the line differ.  The unified-diff text
rendering performed by `difflib.unified_diff` is not modelled; the computed
diff is represented by the pair of line lists that fully determine it. -/
def create_diff (before_config after_config hostname : List Char) :
    Option (List (List Char) × List (List Char)) :=
  if filter_config_lines before_config = filter_config_lines after_config then none
  else some (splitKeepEnds (filter_config_lines before_config),
    splitKeepEnds (filter_config_lines after_config))

lemma dropWhile_head_false {p : Char → Bool} :
    ∀ (l : List Char) (c : Char) (rest : List Char),
      l.dropWhile p = c :: rest → p c = false := by
  intro l
  induction l with
  | nil => intro c rest h; exact absurd h (by simp)
  | cons a l ih =>
    intro c rest h
    rw [List.dropWhile_cons] at h
    by_cases ha : p a = true
    · rw [if_pos ha] at h
      exact ih c rest h
    · rw [if_neg ha] at h
      cases h
      exact Bool.eq_false_iff.mpr ha

lemma dropWhile_append_singleton {p : Char → Bool} (c : Char) (hc : p c = false) :
    ∀ xs : List Char, (xs ++ [c]).dropWhile p = xs.dropWhile p ++ [c] := by
  intro xs
  induction xs with
  | nil => simp [List.dropWhile_cons, hc]
  | cons x xs ih =>
    rw [List.cons_append, List.dropWhile_cons, List.dropWhile_cons]
    by_cases hx : p x = true
    · rw [if_pos hx, if_pos hx, ih]
    · rw [if_neg hx, if_neg hx, List.cons_append]

/-- C8: two texts whose non-comment lines coincide (they differ only in lines
whose first non-whitespace character is `!`) produce no diff — in particular
every text diffed against itself — and the filter removes exactly the lines
whose first non-whitespace character is `!` (the stripped-line `!`-test is
equivalent to the first-non-whitespace-character test), with empty input
yielding empty output. -/
theorem diff_ignores_comment_lines :
    (∀ t1 t2 host : List Char,
      (splitCh '\n' t1).filter (fun line => !(hasPfx ['!'] (stripChars line)))
        = (splitCh '\n' t2).filter (fun line => !(hasPfx ['!'] (stripChars line)))
      → create_diff t1 t2 host = none)
    ∧ (∀ t host : List Char, create_diff t t host = none)
    ∧ (∀ t : List Char, filter_config_lines t
        = List.intercalate ['\n'] ((splitCh '\n' t).filter
            (fun line => !(hasPfx ['!'] (stripChars line)))))
    ∧ (∀ line : List Char, hasPfx ['!'] (stripChars line) = true
        ↔ (line.dropWhile isSpaceChar).head? = some '!')
    ∧ filter_config_lines [] = [] := by
  have hfc : ∀ t : List Char, filter_config_lines t
      = List.intercalate ['\n'] ((splitCh '\n' t).filter
          (fun line => !(hasPfx ['!'] (stripChars line)))) := by
    intro t
    by_cases ht : t = []
    · subst ht
      decide
    · unfold filter_config_lines
      rw [if_neg ht]
  have h1 : ∀ t1 t2 host : List Char,
      (splitCh '\n' t1).filter (fun line => !(hasPfx ['!'] (stripChars line)))
        = (splitCh '\n' t2).filter (fun line => !(hasPfx ['!'] (stripChars line)))
      → create_diff t1 t2 host = none := by
    intro t1 t2 host heq
    unfold create_diff
    rw [hfc t1, hfc t2, heq, if_pos rfl]
  refine ⟨h1, fun t host => h1 t t host rfl, hfc, ?_, by decide⟩
  intro line
  rcases hdw : line.dropWhile isSpaceChar with _ | ⟨c, rest⟩
  · unfold stripChars
    rw [hdw]
    simp [hasPfx]
  · have hc : isSpaceChar c = false := dropWhile_head_false line c rest hdw
    unfold stripChars
    rw [hdw, List.reverse_cons, dropWhile_append_singleton c hc, List.reverse_append]
    by_cases hbang : ('!' : Char) = c
    · subst hbang
      simp [hasPfx]
    · simp [hasPfx, hbang]
      intro h
      exact absurd h.symm hbang

/-- Witness for `diff_ignores_comment_lines`: two texts differing only in a
leading timestamp comment line produce no diff. -/
theorem diff_ignores_comment_lines_witness :
    ((splitCh '\n' "!Time: Mon\nhostname sw1".toList).filter
        (fun line => !(hasPfx ['!'] (stripChars line)))
      = (splitCh '\n' "!Time: Tue\nhostname sw1".toList).filter
        (fun line => !(hasPfx ['!'] (stripChars line))))
    ∧ create_diff "!Time: Mon\nhostname sw1".toList "!Time: Tue\nhostname sw1".toList []
      = none :=
  ⟨by decide,
    diff_ignores_comment_lines.1 "!Time: Mon\nhostname sw1".toList
      "!Time: Tue\nhostname sw1".toList [] (by decide)⟩

end PortProfile
